import Mathlib

/-!
Shallow embedding of the DSSE ("Dead Simple Signing Envelope") module
`src/dsse.rs` of the `registry` crate, together with proofs of the
specification's claims about it.

Byte sequences are modelled as `List Nat` (each element a byte value).
The abstract signing capability (`impl Signer<S>` in the source) is a
function from message bytes to either an error or signature bytes; the
abstract verification capability (`S::from_bytes` plus `impl Verifier<S>`)
is a pair of functions, one reconstructing a typed signature value from
stored bytes and one accepting or rejecting a (message, signature value)
pair.  Fallible operations return `Except Error`.
-/

namespace DSSE

/-- Errors surfaced by the envelope operations.  The crate's `Error` enum is
not part of the given sources; `InvalidSigningKey` is the variant the code in
`dsse.rs` constructs itself (used both for duplicate keys at sign time and
for missing keys at verify time, distinguished by message), and
`SignatureError` stands for errors converted from the underlying signature
crate (signing failures, malformed signatures, verification failures). -/
inductive Error where
  | InvalidSigningKey (msg : String)
  | SignatureError (msg : String)
deriving DecidableEq

/-- Decimal digits of `n`, least significant first, computed by repeated
division by 10.  `fuel` bounds the recursion; it is always called with
`fuel = n`, which suffices since `n / 10 < n` for `n > 0`. -/
def decDigitsAux : Nat → Nat → List Nat
  | _, 0 => []
  | 0, _ + 1 => []
  | fuel + 1, n + 1 => (n + 1) % 10 :: decDigitsAux fuel ((n + 1) / 10)

/-- Decimal digits of `n`, least significant first (empty for `0`). -/
def decDigits (n : Nat) : List Nat := decDigitsAux n n

/-- ASCII bytes of the decimal representation of `n`, most significant digit
first, no leading zeros: the bytes produced by Rust's
`write!(&mut buf, "{}", n)` for a `usize` length. -/
def decimalBytes (n : Nat) : List Nat :=
  if n = 0 then [48] else ((decDigits n).map (fun d => d + 48)).reverse

/-- PAE(type, body) = "DSSEv1" + SP + LEN(type) + SP + type + SP + LEN(body)
+ SP + body, translated from `pre_authentication_encoding` in `dsse.rs`:
the buffer receives `b"DSSEv1 "`, then `"{} "` formatted with `type_.len()`,
then `type_`, then `" {} "` formatted with `body.len()`, then `body`.
`[68, 83, 83, 69, 118, 49, 32]` is `b"DSSEv1 "` and `32` is the ASCII
space. -/
def pre_authentication_encoding (type_ body : List Nat) : List Nat :=
  [68, 83, 83, 69, 118, 49, 32] ++
    decimalBytes type_.length ++ [32] ++ type_ ++ [32] ++
    decimalBytes body.length ++ [32] ++ body

/-- DSSE Signature: a key identifier together with raw signature bytes. -/
structure Signature where
  key_id : String
  signature : List Nat
deriving DecidableEq

/-- DSSE Envelope: payload type, payload bytes and the ordered signature
collection. -/
structure Envelope where
  payload_type : List Nat
  payload : List Nat
  signatures : List Signature
deriving DecidableEq

/-- Translation of `Envelope::new`: fixed payload type and payload, no signatures. -/
def Envelope.new (payload_type : List Nat) (payload : List Nat) : Envelope :=
  { payload_type := payload_type, payload := payload, signatures := [] }

/-- Translation of `Signature::sign`: compute the PAE message, invoke the abstract signing
capability on it, and wrap the resulting bytes with the given key id.  An
error from the capability is propagated by `?`. -/
def Signature.sign (payload_type : List Nat) (payload : List Nat)
    (key_id : String) (signer : List Nat → Except Error (List Nat)) :
    Except Error Signature :=
  let msg := pre_authentication_encoding payload_type payload
  match signer msg with
  | Except.error e => Except.error e
  | Except.ok signature => Except.ok { key_id := key_id, signature := signature }

/-- Error value built by `Envelope::sign` when a signature with the same
key id already exists. -/
def duplicateKeyError (key_id : String) : Error :=
  Error.InvalidSigningKey ("already has a signature with key_id " ++ key_id.quote)

/-- Error value built by `Envelope::verify` when no signature carries the
requested key id. -/
def keyNotFoundError (key_id : String) : Error :=
  Error.InvalidSigningKey ("no signature with key_id " ++ key_id.quote)

/-- Translation of `Envelope::sign`, modelled as a function from the pre-state to the
result paired with the post-state (`&mut self` in the source).  If any
existing signature has the requested key id the call fails and the envelope
is untouched; otherwise it delegates to `Signature::sign` and on success
appends the new signature, while an error from the delegate is propagated
with the envelope untouched. -/
def Envelope.sign (e : Envelope) (key_id : String)
    (signer : List Nat → Except Error (List Nat)) :
    Except Error Unit × Envelope :=
  if e.signatures.any (fun s => s.key_id == key_id) then
    (Except.error (duplicateKeyError key_id), e)
  else
    match Signature.sign e.payload_type e.payload key_id signer with
    | Except.error err => (Except.error err, e)
    | Except.ok s =>
        (Except.ok (), { e with signatures := e.signatures ++ [s] })

/-- Translation of `Signature::verify`: reconstruct the typed signature value from the
stored bytes (`S::from_bytes`), recompute the PAE message, and invoke the
abstract verification capability; each error is propagated by `?`. -/
def Signature.verify {S : Type} (s : Signature)
    (payload_type : List Nat) (payload : List Nat)
    (from_bytes : List Nat → Except Error S)
    (verifier : List Nat → S → Except Error Unit) : Except Error Unit :=
  match from_bytes s.signature with
  | Except.error e => Except.error e
  | Except.ok sig =>
      let msg := pre_authentication_encoding payload_type payload
      verifier msg sig

/-- Translation of `Envelope::verify`: find the first signature whose key id matches,
failing with the key-not-found error if none does; delegate to
`Signature::verify` with this envelope's payload type and payload,
propagating its error; on success return the stored payload bytes. -/
def Envelope.verify {S : Type} (e : Envelope) (key_id : String)
    (from_bytes : List Nat → Except Error S)
    (verifier : List Nat → S → Except Error Unit) :
    Except Error (List Nat) :=
  match e.signatures.find? (fun s => s.key_id == key_id) with
  | none => Except.error (keyNotFoundError key_id)
  | some s =>
      match Signature.verify s e.payload_type e.payload from_bytes verifier with
      | Except.error err => Except.error err
      | Except.ok _ => Except.ok e.payload

/-- Bytes of an ASCII string, used to state concrete test vectors. -/
def strBytes (s : String) : List Nat := s.data.map Char.toNat

/-- Specification-side LEN: the decimal ASCII representation of `n` with no
leading zeros, most significant digit first, phrased through Mathlib's
`Nat.digits`. -/
def LEN_spec (n : Nat) : List Nat :=
  if n = 0 then [48] else ((Nat.digits 10 n).map (fun d => d + 48)).reverse

/-- Value of a digit list, least significant digit first, in base 10. -/
def ofDigits : List Nat → Nat
  | [] => 0
  | d :: ds => d + 10 * ofDigits ds

theorem ofDigits_decDigitsAux : ∀ (fuel n : Nat), n ≤ fuel →
    ofDigits (decDigitsAux fuel n) = n := by
  intro fuel
  induction fuel with
  | zero =>
      intro n hn
      interval_cases n
      simp [decDigitsAux, ofDigits]
  | succ fuel ih =>
      intro n hn
      match n with
      | 0 => simp [decDigitsAux, ofDigits]
      | m + 1 =>
          have hdiv : (m + 1) / 10 ≤ fuel := by
            have h1 : (m + 1) / 10 < m + 1 := Nat.div_lt_self (Nat.succ_pos m) (by omega)
            omega
          simp only [decDigitsAux, ofDigits, ih _ hdiv]
          omega

theorem ofDigits_decDigits (n : Nat) : ofDigits (decDigits n) = n :=
  ofDigits_decDigitsAux n n (Nat.le_refl n)

theorem decDigits_injective {m n : Nat} (h : decDigits m = decDigits n) :
    m = n := by
  have hm := ofDigits_decDigits m
  rw [h, ofDigits_decDigits] at hm
  exact hm.symm

theorem decDigitsAux_lt_ten : ∀ (fuel n x : Nat),
    x ∈ decDigitsAux fuel n → x < 10 := by
  intro fuel
  induction fuel with
  | zero =>
      intro n x hx
      match n with
      | 0 => simp [decDigitsAux] at hx
      | m + 1 => simp [decDigitsAux] at hx
  | succ fuel ih =>
      intro n x hx
      match n with
      | 0 => simp [decDigitsAux] at hx
      | m + 1 =>
          simp only [decDigitsAux, List.mem_cons] at hx
          rcases hx with rfl | hx
          · exact Nat.mod_lt _ (by omega)
          · exact ih _ _ hx

theorem decimalBytes_mem_ge {n x : Nat} (hx : x ∈ decimalBytes n) : 48 ≤ x := by
  unfold decimalBytes at hx
  split at hx
  · simp at hx
    omega
  · simp only [List.mem_reverse, List.mem_map] at hx
    obtain ⟨d, _, rfl⟩ := hx
    omega

theorem space_not_mem_decimalBytes (n : Nat) : 32 ∉ decimalBytes n := by
  intro h
  have := decimalBytes_mem_ge h
  omega

theorem decimalBytes_eq_singleton {n : Nat} (h : decimalBytes n = [48]) :
    n = 0 := by
  by_contra hn
  unfold decimalBytes at h
  rw [if_neg hn] at h
  have hmap : (decDigits n).map (fun d => d + 48) = [48] := by
    have h' := congrArg List.reverse h
    simpa using h'
  have hdig : decDigits n = [0] := by
    cases hd : decDigits n with
    | nil => rw [hd] at hmap; simp at hmap
    | cons d ds =>
        rw [hd] at hmap
        simp only [List.map_cons, List.cons.injEq] at hmap
        obtain ⟨h1, h2⟩ := hmap
        have hds : ds = [] := List.map_eq_nil_iff.mp h2
        have hd0 : d = 0 := by omega
        rw [hds, hd0]
  have hv := ofDigits_decDigits n
  rw [hdig] at hv
  simp [ofDigits] at hv
  exact hn hv.symm

theorem decimalBytes_injective {m n : Nat}
    (h : decimalBytes m = decimalBytes n) : m = n := by
  by_cases hm : m = 0 <;> by_cases hn : n = 0
  · omega
  · have : decimalBytes n = [48] := by
      rw [← h, hm]
      simp [decimalBytes]
    have := decimalBytes_eq_singleton this
    omega
  · have : decimalBytes m = [48] := by
      rw [h, hn]
      simp [decimalBytes]
    have := decimalBytes_eq_singleton this
    omega
  · unfold decimalBytes at h
    rw [if_neg hm, if_neg hn] at h
    have h' := congrArg List.reverse h
    simp only [List.reverse_reverse] at h'
    have hmap : Function.Injective (fun d : Nat => d + 48) := by
      intro a b hab
      have hab' : a + 48 = b + 48 := hab
      omega
    exact decDigits_injective (List.map_injective_iff.mpr hmap h')

theorem decDigitsAux_eq_digits : ∀ (fuel n : Nat), n ≤ fuel →
    decDigitsAux fuel n = Nat.digits 10 n := by
  intro fuel
  induction fuel with
  | zero =>
      intro n hn
      interval_cases n
      simp [decDigitsAux]
  | succ fuel ih =>
      intro n hn
      match n with
      | 0 => simp [decDigitsAux]
      | m + 1 =>
          have hdiv : (m + 1) / 10 ≤ fuel := by
            have h1 : (m + 1) / 10 < m + 1 := Nat.div_lt_self (Nat.succ_pos m) (by omega)
            omega
          rw [Nat.digits_def' (by omega : 1 < 10) (Nat.succ_pos m)]
          simp only [decDigitsAux, ih _ hdiv]

theorem decimalBytes_eq_LEN_spec (n : Nat) : decimalBytes n = LEN_spec n := by
  unfold decimalBytes LEN_spec decDigits
  rw [decDigitsAux_eq_digits n n (Nat.le_refl n)]

theorem split_at_space : ∀ (d1 : List Nat) (d2 r1 r2 : List Nat),
    32 ∉ d1 → 32 ∉ d2 → d1 ++ 32 :: r1 = d2 ++ 32 :: r2 →
    d1 = d2 ∧ r1 = r2 := by
  intro d1
  induction d1 with
  | nil =>
      intro d2 r1 r2 _ h2 heq
      cases d2 with
      | nil => simpa using heq
      | cons x d2 =>
          exfalso
          simp only [List.nil_append, List.cons_append, List.cons.injEq] at heq
          apply h2
          rw [← heq.1]
          exact List.mem_cons_self 32 d2
  | cons x d1 ih =>
      intro d2 r1 r2 h1 h2 heq
      cases d2 with
      | nil =>
          exfalso
          simp only [List.cons_append, List.nil_append, List.cons.injEq] at heq
          apply h1
          rw [heq.1]
          exact List.mem_cons_self 32 d1
      | cons y d2 =>
          simp only [List.cons_append, List.cons.injEq] at heq
          obtain ⟨hxy, heq'⟩ := heq
          have h1' : 32 ∉ d1 := fun hm => h1 (List.mem_cons_of_mem x hm)
          have h2' : 32 ∉ d2 := fun hm => h2 (List.mem_cons_of_mem y hm)
          obtain ⟨hd, hr⟩ := ih d2 r1 r2 h1' h2' heq'
          exact ⟨by rw [hxy, hd], hr⟩

/-- C1: for every pair of byte sequences (type, body),
`pre_authentication_encoding` returns exactly the concatenation
"DSSEv1" + SP + LEN(type) + SP + type + SP + LEN(body) + SP + body, where SP
is the ASCII space 0x20 and LEN is the decimal ASCII representation of the
byte length with no leading zeros (stated through Mathlib's `Nat.digits`);
in particular on the spec's example PAE("http://example.com/HelloWorld",
"hello world") = "DSSEv1 29 http://example.com/HelloWorld 11 hello world".
The function is a total Lean function on all byte lists, hence defined for
every input and deterministic. -/
theorem pae_equation_and_example :
    (∀ type_ body : List Nat,
      pre_authentication_encoding type_ body =
        strBytes "DSSEv1" ++ [32] ++ LEN_spec type_.length ++ [32] ++ type_ ++
          [32] ++ LEN_spec body.length ++ [32] ++ body) ∧
    pre_authentication_encoding (strBytes "http://example.com/HelloWorld")
        (strBytes "hello world") =
      strBytes "DSSEv1 29 http://example.com/HelloWorld 11 hello world" := by
  constructor
  · intro t b
    have h : strBytes "DSSEv1" = [68, 83, 83, 69, 118, 49] := by decide
    rw [h, pre_authentication_encoding, ← decimalBytes_eq_LEN_spec,
      ← decimalBytes_eq_LEN_spec]
    simp [List.append_assoc]
  · decide

/-- C3: PAE is injective: two pairs of byte sequences with byte-for-byte
equal encodings are equal componentwise, so no (type, body) pair's encoding
can be forged from a different pair's encoding. -/
theorem pae_injective (t1 b1 t2 b2 : List Nat)
    (h : pre_authentication_encoding t1 b1 = pre_authentication_encoding t2 b2) :
    t1 = t2 ∧ b1 = b2 := by
  unfold pre_authentication_encoding at h
  simp only [List.append_assoc, List.cons_append, List.nil_append,
    List.cons.injEq, true_and] at h
  obtain ⟨hdec, hrest⟩ := split_at_space _ _ _ _
    (space_not_mem_decimalBytes t1.length)
    (space_not_mem_decimalBytes t2.length) h
  have hlen : t1.length = t2.length := decimalBytes_injective hdec
  obtain ⟨ht, hrest2⟩ := List.append_inj hrest hlen
  injection hrest2 with _ hrest3
  obtain ⟨_, hb⟩ := split_at_space _ _ _ _
    (space_not_mem_decimalBytes b1.length)
    (space_not_mem_decimalBytes b2.length) hrest3
  exact ⟨ht, hb⟩

/-- Witness for C3 at a concrete input. -/
theorem pae_injective_witness : ([1] : List Nat) = [1] ∧ ([2] : List Nat) = [2] :=
  pae_injective [1] [2] [1] [2] rfl

theorem sign_eq_of_dup (e : Envelope) (K : String)
    (signer : List Nat → Except Error (List Nat))
    (h : ∃ s ∈ e.signatures, s.key_id = K) :
    Envelope.sign e K signer = (Except.error (duplicateKeyError K), e) := by
  unfold Envelope.sign
  have hany : e.signatures.any (fun s => s.key_id == K) = true := by
    rw [List.any_eq_true]
    obtain ⟨s, hs, hk⟩ := h
    exact ⟨s, hs, by simpa using hk⟩
  rw [if_pos hany]

theorem sign_eq_of_signer_error (e : Envelope) (K : String)
    (signer : List Nat → Except Error (List Nat)) (err : Error)
    (hnodup : ∀ s ∈ e.signatures, s.key_id ≠ K)
    (hsig : signer (pre_authentication_encoding e.payload_type e.payload) =
      Except.error err) :
    Envelope.sign e K signer = (Except.error err, e) := by
  unfold Envelope.sign
  have hany : e.signatures.any (fun s => s.key_id == K) = false := by
    rw [List.any_eq_false]
    intro s hs
    simpa using hnodup s hs
  rw [if_neg (by simp [hany]), Signature.sign, hsig]

theorem sign_eq_of_signer_ok (e : Envelope) (K : String)
    (signer : List Nat → Except Error (List Nat)) (sb : List Nat)
    (hnodup : ∀ s ∈ e.signatures, s.key_id ≠ K)
    (hsig : signer (pre_authentication_encoding e.payload_type e.payload) =
      Except.ok sb) :
    Envelope.sign e K signer =
      (Except.ok (), { e with
        signatures := e.signatures ++ [{ key_id := K, signature := sb }] }) := by
  unfold Envelope.sign
  have hany : e.signatures.any (fun s => s.key_id == K) = false := by
    rw [List.any_eq_false]
    intro s hs
    simpa using hnodup s hs
  rw [if_neg (by simp [hany]), Signature.sign, hsig]

theorem sign_ok_inv (e : Envelope) (K : String)
    (signer : List Nat → Except Error (List Nat)) (e' : Envelope)
    (h : Envelope.sign e K signer = (Except.ok (), e')) :
    (∀ s ∈ e.signatures, s.key_id ≠ K) ∧
    ∃ sb, signer (pre_authentication_encoding e.payload_type e.payload) =
        Except.ok sb ∧
      e' = { e with
        signatures := e.signatures ++ [{ key_id := K, signature := sb }] } := by
  unfold Envelope.sign at h
  by_cases hany : e.signatures.any (fun s => s.key_id == K) = true
  · rw [if_pos hany] at h
    exact absurd (congrArg Prod.fst h) (by simp)
  · rw [if_neg hany] at h
    have hanyf : e.signatures.any (fun s => s.key_id == K) = false :=
      eq_false_of_ne_true hany
    rw [List.any_eq_false] at hanyf
    have hnodup : ∀ s ∈ e.signatures, s.key_id ≠ K := by
      intro s hs
      simpa using hanyf s hs
    refine ⟨hnodup, ?_⟩
    rw [Signature.sign] at h
    cases hsig : signer (pre_authentication_encoding e.payload_type e.payload) with
    | error err =>
        rw [hsig] at h
        exact absurd (congrArg Prod.fst h) (by simp)
    | ok sb =>
        rw [hsig] at h
        exact ⟨sb, rfl, (congrArg Prod.snd h).symm⟩

theorem sign_error_inv (e : Envelope) (K : String)
    (signer : List Nat → Except Error (List Nat)) (err : Error)
    (h : (Envelope.sign e K signer).1 = Except.error err) :
    (Envelope.sign e K signer).2 = e := by
  unfold Envelope.sign at h ⊢
  by_cases hany : e.signatures.any (fun s => s.key_id == K) = true
  · rw [if_pos hany]
  · rw [if_neg hany] at h ⊢
    rw [Signature.sign] at h ⊢
    cases hsig : signer (pre_authentication_encoding e.payload_type e.payload) with
    | error e2 => simp
    | ok sb =>
        rw [hsig] at h
        simp at h

theorem find?_first {α : Type} (p : α → Bool) (s : α) (post : List α) :
    ∀ pre : List α, (∀ x ∈ pre, ¬ p x) → p s →
    List.find? p (pre ++ s :: post) = some s := by
  intro pre
  induction pre with
  | nil =>
      intro _ hp
      simpa using List.find?_cons_of_pos post hp
  | cons x pre ih =>
      intro hpre hp
      have hx : ¬ p x = true := hpre x (List.mem_cons_self x pre)
      simp only [List.cons_append]
      rw [List.find?_cons_of_neg _ hx]
      exact ih (fun y hy => hpre y (List.mem_cons_of_mem x hy)) hp

theorem verify_eq_of_find (S : Type) (e : Envelope) (K : String)
    (s : Signature)
    (hfind : e.signatures.find? (fun s => s.key_id == K) = some s)
    (from_bytes : List Nat → Except Error S)
    (verifier : List Nat → S → Except Error Unit) :
    Envelope.verify e K from_bytes verifier =
      match Signature.verify s e.payload_type e.payload from_bytes verifier with
      | Except.error err => Except.error err
      | Except.ok _ => Except.ok e.payload := by
  unfold Envelope.verify
  rw [hfind]

theorem find?_append_match {α : Type} (p : α → Bool) :
    ∀ (l1 l2 : List α), List.find? p (l1 ++ l2) =
      match List.find? p l1 with
      | some x => some x
      | none => List.find? p l2 := by
  intro l1 l2
  induction l1 with
  | nil => simp
  | cons x l1 ih =>
      by_cases hx : p x = true
      · simp [List.find?_cons_of_pos _ hx]
      · simp only [List.cons_append, List.find?_cons_of_neg _ hx, ih]

/-- Envelopes reachable from `Envelope::new` by any sequence of (possibly
failing) sign operations. -/
inductive Reachable : Envelope → Prop where
  | new (payload_type payload : List Nat) :
      Reachable (Envelope.new payload_type payload)
  | sign (e : Envelope) (key_id : String)
      (signer : List Nat → Except Error (List Nat)) (r : Except Error Unit)
      (e' : Envelope) (he : Reachable e)
      (hstep : Envelope.sign e key_id signer = (r, e')) : Reachable e'

/-- C2: round trip.  Under the hypotheses that the signer succeeds on the
PAE message of (T, P) and that the verification capability accepts exactly
the signatures the signing capability produces over a given message, signing
a freshly constructed envelope with key id K and then verifying with key id
K succeeds and returns the payload P unchanged. -/
theorem sign_verify_round_trip {S : Type} (T P : List Nat) (K : String)
    (signer : List Nat → Except Error (List Nat))
    (from_bytes : List Nat → Except Error S)
    (verifier : List Nat → S → Except Error Unit)
    (hsig : ∃ sb, signer (pre_authentication_encoding T P) = Except.ok sb)
    (hcompat : ∀ msg sb, signer msg = Except.ok sb →
      ∃ s, from_bytes sb = Except.ok s ∧ verifier msg s = Except.ok ()) :
    ∃ e', Envelope.sign (Envelope.new T P) K signer = (Except.ok (), e') ∧
      Envelope.verify e' K from_bytes verifier = Except.ok P := by
  obtain ⟨sb, hsb⟩ := hsig
  have hsign := sign_eq_of_signer_ok (Envelope.new T P) K signer sb
    (by intro s hs; simp [Envelope.new] at hs) hsb
  refine ⟨_, hsign, ?_⟩
  obtain ⟨s, hfb, hv⟩ := hcompat _ _ hsb
  unfold Envelope.verify
  simp [Envelope.new, Signature.verify, hfb, hv]

/-- Witness for C2 at a concrete input. -/
theorem sign_verify_round_trip_witness :
    ∃ e', Envelope.sign (Envelope.new [1] [2, 3]) "k"
        (fun msg => Except.ok msg) = (Except.ok (), e') ∧
      Envelope.verify e' "k"
        (fun bs => (Except.ok bs : Except Error (List Nat)))
        (fun msg s => if s = msg then Except.ok () else
          Except.error (Error.SignatureError "bad")) = Except.ok [2, 3] :=
  sign_verify_round_trip [1] [2, 3] "k" _ _ _ ⟨_, rfl⟩
    (by
      intro msg sb h
      injection h with h
      subst h
      exact ⟨msg, rfl, by simp⟩)

/-- C4: duplicate key rejection.  If a signature with key id K is already
present, sign fails with the duplicate-key error and the envelope is
returned unchanged (no signature appended); in particular after one
successful sign with key id K, a second sign with K fails and the envelope
retains exactly the signatures it had after the first sign. -/
theorem sign_duplicate_key (e : Envelope) (K : String)
    (signer signer2 : List Nat → Except Error (List Nat)) :
    ((∃ s ∈ e.signatures, s.key_id = K) →
      Envelope.sign e K signer = (Except.error (duplicateKeyError K), e)) ∧
    (∀ e1, Envelope.sign e K signer = (Except.ok (), e1) →
      Envelope.sign e1 K signer2 = (Except.error (duplicateKeyError K), e1)) := by
  constructor
  · exact sign_eq_of_dup e K signer
  · intro e1 h
    obtain ⟨hnodup, sb, hsb, he1⟩ := sign_ok_inv e K signer e1 h
    apply sign_eq_of_dup
    refine ⟨{ key_id := K, signature := sb }, ?_, rfl⟩
    rw [he1]
    simp

/-- Witness for C4 at a concrete input. -/
theorem sign_duplicate_key_witness :
    Envelope.sign
      { payload_type := [], payload := [],
        signatures := [{ key_id := "k", signature := [9] }] } "k"
      (fun _ => Except.ok [7]) =
    (Except.error (duplicateKeyError "k"),
      { payload_type := [], payload := [],
        signatures := [{ key_id := "k", signature := [9] }] }) :=
  (sign_duplicate_key _ "k" _ (fun _ => Except.ok [7])).1
    ⟨_, List.mem_cons_self _ _, rfl⟩

/-- C5: key-uniqueness invariant.  Every envelope reachable from
`Envelope::new` by any sequence of (possibly failing) sign operations has
pairwise distinct key ids in its signature collection. -/
theorem reachable_key_ids_nodup (e : Envelope) (h : Reachable e) :
    (e.signatures.map Signature.key_id).Nodup := by
  induction h with
  | new T P => simp [Envelope.new]
  | sign e K signer r e' he hstep ih =>
      cases r with
      | error err =>
          have he' : e' = e := by
            have h2 := sign_error_inv e K signer err (by rw [hstep])
            rw [hstep] at h2
            exact h2
          rw [he']
          exact ih
      | ok u =>
          cases u
          obtain ⟨hnodup, sb, hsb, he'⟩ := sign_ok_inv e K signer e' hstep
          have hK : K ∉ e.signatures.map Signature.key_id := by
            intro hmem
            obtain ⟨s, hs, hkey⟩ := List.mem_map.mp hmem
            exact hnodup s hs hkey
          rw [he']
          simp only [List.map_append]
          refine List.Nodup.append ih (by simp) ?_
          intro a ha hb
          simp at hb
          subst hb
          exact hK ha

/-- Witness for C5 at a concrete input. -/
theorem reachable_key_ids_nodup_witness :
    (((Envelope.new [1] [2]).signatures.map Signature.key_id)).Nodup :=
  reachable_key_ids_nodup _ (Reachable.new [1] [2])

/-- C6: verify selects the first signature whose key id matches (even when
several entries match, as after deserializing duplicates), delegates to
`Signature::verify` with this envelope's payload type and payload, returns
the stored payload bytes on success, and propagates the delegate's error
unchanged. -/
theorem verify_first_match {S : Type} (e : Envelope) (K : String)
    (pre post : List Signature) (s : Signature)
    (hsplit : e.signatures = pre ++ s :: post)
    (hpre : ∀ x ∈ pre, x.key_id ≠ K) (hs : s.key_id = K)
    (from_bytes : List Nat → Except Error S)
    (verifier : List Nat → S → Except Error Unit) :
    Envelope.verify e K from_bytes verifier =
      match Signature.verify s e.payload_type e.payload from_bytes verifier with
      | Except.error err => Except.error err
      | Except.ok _ => Except.ok e.payload := by
  apply verify_eq_of_find
  rw [hsplit]
  apply find?_first
  · intro x hx
    simpa using hpre x hx
  · simpa using hs

/-- Witness for C6 at a concrete input with a duplicate key id. -/
theorem verify_first_match_witness :
    Envelope.verify (S := List Nat)
      { payload_type := [1], payload := [2],
        signatures := [{ key_id := "a", signature := [1] },
          { key_id := "k", signature := [5] },
          { key_id := "k", signature := [6] }] } "k"
      (fun bs => Except.ok bs) (fun _ _ => Except.ok ()) = Except.ok [2] := by
  rw [verify_first_match _ "k" [{ key_id := "a", signature := [1] }]
    [{ key_id := "k", signature := [6] }] { key_id := "k", signature := [5] }
    rfl (by decide) rfl _ _]
  rfl

/-- C7: key-not-found rejection.  When no signature in the envelope carries
key id K, verify fails with the key-not-found error, for every verification
capability (so the capability is never consulted and no payload is
returned). -/
theorem verify_key_not_found_rejection {S : Type} (e : Envelope) (K : String)
    (from_bytes : List Nat → Except Error S)
    (verifier : List Nat → S → Except Error Unit)
    (h : ∀ s ∈ e.signatures, s.key_id ≠ K) :
    Envelope.verify e K from_bytes verifier =
      Except.error (keyNotFoundError K) := by
  unfold Envelope.verify
  have hfind : e.signatures.find? (fun s => s.key_id == K) = none := by
    rw [List.find?_eq_none]
    intro s hs
    simpa using h s hs
  rw [hfind]

/-- Witness for C7 at a concrete input. -/
theorem verify_key_not_found_witness :
    Envelope.verify (S := List Nat) (Envelope.new [1] [2]) "k"
      (fun bs => Except.ok bs) (fun _ _ => Except.ok ()) =
      Except.error (keyNotFoundError "k") :=
  verify_key_not_found_rejection (Envelope.new [1] [2]) "k" _ _
    (by simp [Envelope.new])

/-- C8: sign atomicity and error propagation.  Sign either appends exactly
one signature or leaves the envelope unchanged: on any error the post-state
equals the pre-state, on success the post-state is the pre-state with one
signature appended (payload and payload type untouched), and an error from
the signing capability is propagated to the caller unchanged with the
envelope untouched. -/
theorem sign_atomic (e : Envelope) (K : String)
    (signer : List Nat → Except Error (List Nat)) :
    (∀ err, (Envelope.sign e K signer).1 = Except.error err →
      (Envelope.sign e K signer).2 = e) ∧
    ((Envelope.sign e K signer).1 = Except.ok () →
      ∃ sig, (Envelope.sign e K signer).2 =
        { e with signatures := e.signatures ++ [sig] }) ∧
    (∀ err, (∀ s ∈ e.signatures, s.key_id ≠ K) →
      signer (pre_authentication_encoding e.payload_type e.payload) =
        Except.error err →
      Envelope.sign e K signer = (Except.error err, e)) := by
  refine ⟨fun err h => sign_error_inv e K signer err h, ?_,
    fun err h1 h2 => sign_eq_of_signer_error e K signer err h1 h2⟩
  intro h
  have h' : Envelope.sign e K signer =
      (Except.ok (), (Envelope.sign e K signer).2) := by
    rw [← h]
  obtain ⟨_, sb, _, he⟩ := sign_ok_inv e K signer _ h'
  exact ⟨_, he⟩

/-- Witness for C8 at a concrete input where the signing capability fails. -/
theorem sign_atomic_witness :
    Envelope.sign (Envelope.new [] []) "k"
      (fun _ => Except.error (Error.SignatureError "x")) =
      (Except.error (Error.SignatureError "x"), Envelope.new [] []) :=
  (sign_atomic (Envelope.new [] []) "k" _).2.2 (Error.SignatureError "x")
    (by simp [Envelope.new]) rfl

/-- C9: sign append semantics and frame.  On success, the new signature
collection is the old one with exactly one signature appended at the end,
carrying key id K and the bytes produced by the signing capability over
PAE(payload_type, payload); payload and payload type are unchanged. -/
theorem sign_append (e : Envelope) (K : String)
    (signer : List Nat → Except Error (List Nat)) (e' : Envelope)
    (h : Envelope.sign e K signer = (Except.ok (), e')) :
    ∃ sb, signer (pre_authentication_encoding e.payload_type e.payload) =
        Except.ok sb ∧
      e' = { e with signatures :=
        e.signatures ++ [{ key_id := K, signature := sb }] } :=
  (sign_ok_inv e K signer e' h).2

/-- Witness for C9 at a concrete input. -/
theorem sign_append_witness :
    ∃ sb, (fun _ : List Nat => (Except.ok [7] : Except Error (List Nat)))
        (pre_authentication_encoding (Envelope.new [1] [2]).payload_type
          (Envelope.new [1] [2]).payload) = Except.ok sb ∧
      ({ payload_type := [1], payload := [2],
         signatures := [{ key_id := "k", signature := [7] }] } : Envelope) =
      { Envelope.new [1] [2] with signatures :=
        (Envelope.new [1] [2]).signatures ++
          [{ key_id := "k", signature := sb }] } :=
  sign_append (Envelope.new [1] [2]) "k"
    (fun _ : List Nat => (Except.ok [7] : Except Error (List Nat)))
    { payload_type := [1], payload := [2],
      signatures := [{ key_id := "k", signature := [7] }] } rfl

/-- C10: verify is unaffected by other keys' signatures.  If sign succeeds
under a key id different from K, verification with K on the new envelope
returns exactly the same result as on the old envelope. -/
theorem verify_unaffected_by_other_key {S : Type} (e : Envelope)
    (K K' : String) (hne : K' ≠ K)
    (signer : List Nat → Except Error (List Nat)) (e' : Envelope)
    (hsign : Envelope.sign e K' signer = (Except.ok (), e'))
    (from_bytes : List Nat → Except Error S)
    (verifier : List Nat → S → Except Error Unit) :
    Envelope.verify e' K from_bytes verifier =
      Envelope.verify e K from_bytes verifier := by
  obtain ⟨_, sb, _, he'⟩ := sign_ok_inv e K' signer e' hsign
  subst he'
  unfold Envelope.verify
  rw [show ({ e with signatures := e.signatures ++
      [{ key_id := K', signature := sb }] } : Envelope).signatures =
    e.signatures ++ [{ key_id := K', signature := sb }] from rfl]
  rw [find?_append_match]
  have hsingle : List.find? (fun s : Signature => s.key_id == K)
      [{ key_id := K', signature := sb }] = none := by
    simp [List.find?_cons, hne]
  cases hf : e.signatures.find? (fun s => s.key_id == K) with
  | none =>
      rw [hsingle]
  | some s => rfl

/-- Witness for C10 at a concrete input. -/
theorem verify_unaffected_by_other_key_witness :
    Envelope.verify (S := List Nat)
      { payload_type := [1], payload := [2],
        signatures := [{ key_id := "k", signature := [5] },
          { key_id := "j", signature := [7] }] } "k"
      (fun bs => Except.ok bs) (fun _ _ => Except.ok ()) =
    Envelope.verify (S := List Nat)
      { payload_type := [1], payload := [2],
        signatures := [{ key_id := "k", signature := [5] }] } "k"
      (fun bs => Except.ok bs) (fun _ _ => Except.ok ()) :=
  verify_unaffected_by_other_key
    { payload_type := [1], payload := [2],
      signatures := [{ key_id := "k", signature := [5] }] }
    "k" "j" (by decide) (fun _ => Except.ok [7]) _ rfl _ _

end DSSE
